import Mathlib

/-!
Verification of the grid-engine core of the puzzle game in
src/puzzleGame/main.cpp.

The development is a shallow embedding of the C++ code:

* `Vec2D` embeds `struct Vec2D` (integer 2D vectors with addition and
  scalar multiplication).
* Per-cell state is a `Nat` bitmask mirroring `enum Flag`
  (`Object = 1`, `Person = 2`, `Goal = 4`); the C bitwise operators
  `&`, `|` become `&&&`, `|||`, and `~` on a 32-bit `int` becomes
  `flagNot` (xor against the 32-bit all-ones mask, which agrees with the
  C expression on every value an `int` flag can take).
* `Map` embeds `class Map`: the cached person position `_person_pos`
  and the flat `Width * Height` flag array `_map` (as a `List Nat`).
  The unchecked accessor `Flag &Map::at(Vec2D)` indexes the flat array
  at `pos.y * Width + pos.x`; reads of it become `Map.flagAt` and the
  C read-modify-write statements `at(p) op= e` become `Map.updFlag`.
* `Map::calculateObjectLength` is recursive in C++ with no structural
  bound; it is embedded as `calcLenAux` with an explicit fuel argument,
  instantiated with fuel `Width + Height` in `Map.calculateObjectLength`.
  The lemmas below prove the fuel is irrelevant (the result is the same
  for every fuel strictly larger than the object-chain length, which is
  at most 6), so the embedding computes exactly what the terminating
  C++ recursion computes.
* `Map.moveOnlyPerson` and `Map.move` embed the two mutating member
  functions statement by statement, with the mutated object threaded
  explicitly.
-/

namespace PuzzleGame

/-- Integer 2D vector (`struct Vec2D`). -/
structure Vec2D where
  x : Int
  y : Int
deriving DecidableEq

/-- Componentwise addition (`Vec2D::operator+`). -/
instance : Add Vec2D := ⟨fun a b => ⟨a.x + b.x, a.y + b.y⟩⟩

/-- Scalar multiplication (`operator*(int, Vec2D)`). -/
instance : HMul Int Vec2D Vec2D := ⟨fun k v => ⟨k * v.x, k * v.y⟩⟩

/-- Scalar multiplication (`Vec2D::operator*(int)`, defined in the source
as `factor * *this`). -/
instance : HMul Vec2D Int Vec2D := ⟨fun v k => ⟨k * v.x, k * v.y⟩⟩

@[simp] lemma add_x (a b : Vec2D) : (a + b).x = a.x + b.x := rfl

@[simp] lemma add_y (a b : Vec2D) : (a + b).y = a.y + b.y := rfl

@[simp] lemma smul_x (k : Int) (v : Vec2D) : (k * v).x = k * v.x := rfl

@[simp] lemma smul_y (k : Int) (v : Vec2D) : (k * v).y = k * v.y := rfl

@[simp] lemma mulv_x (v : Vec2D) (k : Int) : (v * k).x = k * v.x := rfl

@[simp] lemma mulv_y (v : Vec2D) (k : Int) : (v * k).y = k * v.y := rfl

lemma Vec2D.ext_iff (a b : Vec2D) : a = b ↔ a.x = b.x ∧ a.y = b.y := by
  cases a; cases b; simp

/-- Board width (`size_t constexpr Width = 6`). -/
def Width : Nat := 6

/-- Board height (`size_t constexpr Height = 3`). -/
def Height : Nat := 3

/-- `Flag::Object = 1 << 0`: the cell holds a box. -/
def Object : Nat := 1

/-- `Flag::Person = 1 << 1`: the cell holds the actor. -/
def Person : Nat := 2

/-- `Flag::Goal = 1 << 2`: the cell is a goal. -/
def Goal : Nat := 4

/-- Bitwise complement of a flag value, as computed by the C `operator~`
on a 32-bit `int`: for every `g, f < 2 ^ 32`, the C expression `g & ~f`
equals `g &&& flagNot f`. -/
def flagNot (f : Nat) : Nat := (2 ^ 32 - 1) ^^^ f

/-- The four movement directions (`enum Direction`). -/
inductive Direction where
  | Up
  | Down
  | Left
  | Right
deriving DecidableEq

/-- `dirToVec`: one-cell offset of a direction.  The C++ `default: throw`
branch is unreachable (the enum has exactly four values), so the closed
inductive type needs no error case. -/
def dirToVec : Direction → Vec2D
  | Direction.Up => ⟨0, -1⟩
  | Direction.Down => ⟨0, 1⟩
  | Direction.Left => ⟨-1, 0⟩
  | Direction.Right => ⟨1, 0⟩

/-- The whole game state (`class Map`): the cached person position and the
flat row-major array of cell flags. -/
structure Map where
  person_pos : Vec2D
  grid : List Nat

/-- Row-major index used by `Map::at`: `pos.y * Width + pos.x`
(the C++ computes it in `size_t` arithmetic; on the in-bounds
coordinates that the verified operations access it equals this value). -/
def idx (pos : Vec2D) : Nat := (pos.y * (Width : Int) + pos.x).toNat

/-- Read of `Map::at(pos)`: the flag stored at the flat index of `pos`. -/
def Map.flagAt (m : Map) (pos : Vec2D) : Nat := m.grid.getD (idx pos) 0

/-- Read-modify-write through `Map::at(pos)`: the C statements
`at(pos) &= e` / `at(pos) |= e` update the array cell in place. -/
def Map.updFlag (m : Map) (pos : Vec2D) (f : Nat → Nat) : Map :=
  { m with grid := m.grid.set (idx pos) (f (m.flagAt pos)) }

/-- In-bounds predicate: the negation of the rejection test in
`Map::calculateObjectLength`
(`next.x < 0 || Width <= next.x || next.y < 0 || Height <= next.y`). -/
def inBounds (p : Vec2D) : Prop :=
  0 ≤ p.x ∧ p.x < (Width : Int) ∧ 0 ≤ p.y ∧ p.y < (Height : Int)

instance (p : Vec2D) : Decidable (inBounds p) := by
  unfold inBounds
  exact inferInstance

/-- `Map::calculateObjectLength`, with an explicit fuel argument standing
in for the C++ call stack.  The fuel-exhaustion value `-1` in the base
case is never reached for fuel larger than the chain length (proved
below: every chain has length at most 6, and the result is the same for
every fuel of at least chain length + 1). -/
def calcLenAux (m : Map) (dir : Direction) : Nat → Vec2D → Int
  | 0, _ => -1
  | fuel + 1, pos =>
    let next := pos + dirToVec dir
    if next.x < 0 ∨ (Width : Int) ≤ next.x ∨ next.y < 0 ∨ (Height : Int) ≤ next.y then
      -1
    else if m.flagAt next &&& Object ≠ 0 then
      let prev := calcLenAux m dir fuel next
      if prev < 0 then prev else prev + 1
    else
      0

/-- `Map::calculateObjectLength(pos, dir)`: how many boxes a move from
`pos` in direction `dir` would push, or a negative value if the move is
impossible.  Fuel `Width + Height = 9` exceeds every possible recursion
depth (chains are at most 6 cells long, see `calc_dichotomy`). -/
def Map.calculateObjectLength (m : Map) (pos : Vec2D) (dir : Direction) : Int :=
  calcLenAux m dir (Width + Height) pos

/-- `Map::moveOnlyPerson(dir)`, statement by statement:
clear `Person` at the old cell, advance `_person_pos`, clear `Object`
then set `Person` at the new cell. -/
def Map.moveOnlyPerson (m : Map) (dir : Direction) : Map :=
  let m1 := m.updFlag m.person_pos (fun g => g &&& flagNot Person)
  let m2 : Map := { m1 with person_pos := m1.person_pos + dirToVec dir }
  let m3 := m2.updFlag m2.person_pos (fun g => g &&& flagNot Object)
  m3.updFlag m3.person_pos (fun g => g ||| Person)

/-- `Map::move(dir)`: resolve the chain; on a negative count return with
no change; otherwise move the person and, when `num != 0`, raise `Object`
on the cell `num` steps past the (already advanced) person position. -/
def Map.move (m : Map) (dir : Direction) : Map :=
  let num := m.calculateObjectLength m.person_pos dir
  if num < 0 then m
  else
    let m2 := m.moveOnlyPerson dir
    if num ≠ 0 then
      m2.updFlag (m2.person_pos + dirToVec dir * num) (fun g => g ||| Object)
    else m2

/-- The initial layout of `Map::_map` and `Map::_person_pos`:
goals at (1,0) and (2,0), the person at (4,0), boxes at (1,1) and (2,1). -/
def initialMap : Map :=
  { person_pos := ⟨4, 0⟩
    grid := [0, 4, 4, 0, 2, 0,
             0, 1, 1, 0, 0, 0,
             0, 0, 0, 0, 0, 0] }

/-- Folding a list of direction commands through `Map.move` (the game
loop applies one `move` per recognised keystroke). -/
def applyMoves (m : Map) (ds : List Direction) : Map := ds.foldl Map.move m

/-- Claim-level picture of a box chain: the cells one step to `K` steps
ahead of `pos` in direction `v` are all in bounds and all carry
`Object`. -/
def runK (m : Map) (pos v : Vec2D) (K : Nat) : Prop :=
  ∀ i : Nat, i < K →
    inBounds (pos + ((i : Int) + 1) * v) ∧ m.flagAt (pos + ((i : Int) + 1) * v) &&& Object ≠ 0

instance (m : Map) (pos v : Vec2D) (K : Nat) : Decidable (runK m pos v K) := by
  unfold runK
  exact inferInstance

/-- Length of the maximal box chain ahead of `pos`, computed with fuel. -/
def objRunAux (m : Map) (v : Vec2D) : Nat → Vec2D → Nat
  | 0, _ => 0
  | f + 1, pos =>
    let next := pos + v
    if inBounds next ∧ m.flagAt next &&& Object ≠ 0 then objRunAux m v f next + 1 else 0

/-- Number of cells whose `Object` bit is set. -/
def countObjects (m : Map) : Nat := m.grid.countP (fun g => g &&& Object != 0)

/-- "Exactly one cell carries the actor", in checkable index form: the
board has its full `Width * Height = 18` cells, the cached person
position is in bounds, and the `Person` bit is set at exactly its flat
index. -/
def actorUnique (m : Map) : Prop :=
  m.grid.length = 18 ∧ inBounds m.person_pos ∧
    ∀ i : Nat, i < 18 → (m.grid.getD i 0 &&& Person ≠ 0 ↔ i = idx m.person_pos)

instance (m : Map) : Decidable (actorUnique m) := by
  unfold actorUnique
  exact inferInstance

/-- No cell carries both the actor and a box. -/
def noOverlap (m : Map) : Prop :=
  ∀ i : Nat, i < 18 → (m.grid.getD i 0 &&& Person = 0 ∨ m.grid.getD i 0 &&& Object = 0)

instance (m : Map) : Decidable (noOverlap m) := by
  unfold noOverlap
  exact inferInstance

/-- The board coordinate of a flat index. -/
def coordOf (i : Nat) : Vec2D := ⟨((i % 6 : Nat) : Int), ((i / 6 : Nat) : Int)⟩

/-- The coordinates `calculateObjectLength` reads flags at, in order.
The code tests `next` for bounds before reading any flag at `next`, so a
coordinate is recorded only after its bounds test has passed. -/
def calcLenReadsAux (m : Map) (dir : Direction) : Nat → Vec2D → List Vec2D
  | 0, _ => []
  | f + 1, pos =>
    let next := pos + dirToVec dir
    if next.x < 0 ∨ (Width : Int) ≤ next.x ∨ next.y < 0 ∨ (Height : Int) ≤ next.y then []
    else if m.flagAt next &&& Object ≠ 0 then next :: calcLenReadsAux m dir f next
    else [next]

/-- Every coordinate `Map::move` hands to the unchecked accessor
`Map::at` — the scan's reads, then, on success, the two
read-modify-write cells of `moveOnlyPerson` and, when boxes are pushed,
the cell that receives the `Object` flag. -/
def Map.moveAccesses (m : Map) (dir : Direction) : List Vec2D :=
  let num := m.calculateObjectLength m.person_pos dir
  calcLenReadsAux m dir (Width + Height) m.person_pos ++
    (if num < 0 then []
     else [m.person_pos, m.person_pos + dirToVec dir] ++
       (if num ≠ 0 then [m.person_pos + dirToVec dir + dirToVec dir * num] else []))

/-- A small board used to instantiate the theorems: the person at (2,1)
with a single box at (1,1) and the free cell (0,1) beyond it, so a move
Left pushes exactly one box. -/
def mPush : Map :=
  { person_pos := ⟨2, 1⟩
    grid := [0, 0, 0, 0, 0, 0,
             0, 1, 2, 0, 0, 0,
             0, 0, 0, 0, 0, 0] }

/-! ### Bit-level helper lemmas -/

lemma land_land_const (g a c b : Nat) (h : a &&& b = c) : (g &&& a) &&& b = g &&& c := by
  rw [Nat.land_assoc, h]

lemma lor_land (g c b : Nat) : (g ||| c) &&& b = (g &&& b) ||| (c &&& b) := by
  apply Nat.eq_of_testBit_eq
  intro i
  simp only [Nat.testBit_land, Nat.testBit_lor]
  cases g.testBit i <;> cases c.testBit i <;> cases b.testBit i <;> rfl

lemma lor_ne_zero (g c : Nat) (hc : c ≠ 0) : g ||| c ≠ 0 := by
  intro h
  apply hc
  apply Nat.eq_of_testBit_eq
  intro i
  have := congrArg (fun n => Nat.testBit n i) h
  simp only [Nat.testBit_lor] at this
  simp only [Nat.zero_testBit]
  cases hg : g.testBit i <;> cases hcb : c.testBit i <;> simp [hg, hcb] at this ⊢

lemma clearP_object (g : Nat) : (g &&& flagNot Person) &&& Object = g &&& Object :=
  land_land_const g _ _ _ (by decide)

lemma clearP_person (g : Nat) : (g &&& flagNot Person) &&& Person = 0 := by
  rw [land_land_const g _ 0 _ (by decide), Nat.and_zero]

lemma clearP_goal (g : Nat) : (g &&& flagNot Person) &&& Goal = g &&& Goal :=
  land_land_const g _ _ _ (by decide)

lemma clearO_object (g : Nat) : (g &&& flagNot Object) &&& Object = 0 := by
  rw [land_land_const g _ 0 _ (by decide), Nat.and_zero]

lemma clearO_person (g : Nat) : (g &&& flagNot Object) &&& Person = g &&& Person :=
  land_land_const g _ _ _ (by decide)

lemma clearO_goal (g : Nat) : (g &&& flagNot Object) &&& Goal = g &&& Goal :=
  land_land_const g _ _ _ (by decide)

lemma orP_object (g : Nat) : (g ||| Person) &&& Object = g &&& Object := by
  rw [lor_land, show Person &&& Object = 0 from by decide, Nat.or_zero]

lemma orP_person (g : Nat) : (g ||| Person) &&& Person ≠ 0 := by
  rw [lor_land]
  exact lor_ne_zero _ _ (by decide)

lemma orP_goal (g : Nat) : (g ||| Person) &&& Goal = g &&& Goal := by
  rw [lor_land, show Person &&& Goal = 0 from by decide, Nat.or_zero]

lemma orO_object (g : Nat) : (g ||| Object) &&& Object ≠ 0 := by
  rw [lor_land]
  exact lor_ne_zero _ _ (by decide)

lemma orO_person (g : Nat) : (g ||| Object) &&& Person = g &&& Person := by
  rw [lor_land, show Object &&& Person = 0 from by decide, Nat.or_zero]

lemma orO_goal (g : Nat) : (g ||| Object) &&& Goal = g &&& Goal := by
  rw [lor_land, show Object &&& Goal = 0 from by decide, Nat.or_zero]

/-! ### List helper lemmas -/

lemma getD_set_self (l : List Nat) (i : Nat) (v : Nat) (h : i < l.length) :
    (l.set i v).getD i 0 = v := by
  simp [List.getD_eq_getElem?_getD, List.getElem?_set_self h]

lemma getD_set_ne (l : List Nat) (i j : Nat) (v : Nat) (h : i ≠ j) :
    (l.set i v).getD j 0 = l.getD j 0 := by
  simp [List.getD_eq_getElem?_getD, List.getElem?_set_ne h]

lemma countP_set_add (p : Nat → Bool) :
    ∀ (l : List Nat) (i : Nat) (v : Nat), i < l.length →
      (l.set i v).countP p + (if p (l.getD i 0) then 1 else 0)
        = l.countP p + (if p v then 1 else 0)
  | [], i, v, h => by simp at h
  | a :: l, 0, v, h => by
    simp only [List.set, List.countP_cons, List.getD_cons_zero]
    by_cases hv : p v <;> by_cases ha : p a <;> simp [hv, ha] <;> omega
  | a :: l, i + 1, v, h => by
    have IH := countP_set_add p l i v (by simpa using h)
    simp only [List.set, List.countP_cons, List.getD_cons_succ]
    by_cases ha : p a <;> by_cases hb : p (l.getD i 0) <;> by_cases hv : p v <;>
      simp [ha, hb, hv] at IH ⊢ <;> omega

/-! ### Geometry lemmas: the flat index and cells along a direction -/

lemma idx_lt (p : Vec2D) (h : inBounds p) : idx p < 18 := by
  obtain ⟨h1, h2, h3, h4⟩ := h
  unfold idx Width Height at *
  omega

lemma idx_inj (p q : Vec2D) (hp : inBounds p) (hq : inBounds q) (h : idx p = idx q) :
    p = q := by
  obtain ⟨h1, h2, h3, h4⟩ := hp
  obtain ⟨g1, g2, g3, g4⟩ := hq
  rw [Vec2D.ext_iff]
  unfold idx Width Height at *
  omega

lemma cell_zero (pos v : Vec2D) : pos + (0 : Int) * v = pos := by
  rw [Vec2D.ext_iff]
  simp

lemma cell_one (pos v : Vec2D) : pos + (1 : Int) * v = pos + v := by
  rw [Vec2D.ext_iff]
  simp

lemma cell_shift (pos v : Vec2D) (n : Int) : pos + (n + 1) * v = (pos + v) + n * v := by
  rw [Vec2D.ext_iff]
  constructor <;> simp <;> ring

lemma cell_inj (dir : Direction) (pos : Vec2D) (a b : Int)
    (h : pos + a * dirToVec dir = pos + b * dirToVec dir) : a = b := by
  cases dir <;> (rw [Vec2D.ext_iff] at h; simp [dirToVec] at h; omega)

lemma cell_ne (dir : Direction) (pos : Vec2D) (a b : Int) (h : a ≠ b) :
    pos + a * dirToVec dir ≠ pos + b * dirToVec dir :=
  fun hc => h (cell_inj dir pos a b hc)

/-! ### State-update helper lemmas -/

lemma updFlag_person_pos (m : Map) (p : Vec2D) (f : Nat → Nat) :
    (m.updFlag p f).person_pos = m.person_pos := rfl

lemma updFlag_length (m : Map) (p : Vec2D) (f : Nat → Nat) :
    (m.updFlag p f).grid.length = m.grid.length := by
  simp [Map.updFlag]

lemma flagAt_updFlag (m : Map) (p : Vec2D) (f : Nat → Nat) (q : Vec2D) :
    (m.updFlag p f).flagAt q =
      if idx q = idx p ∧ idx p < m.grid.length then f (m.flagAt p) else m.flagAt q := by
  simp only [Map.updFlag, Map.flagAt]
  by_cases hlen : idx p < m.grid.length
  · by_cases hq : idx q = idx p
    · rw [hq, if_pos ⟨rfl, hlen⟩]
      exact getD_set_self _ _ _ hlen
    · rw [if_neg (by simp [hq])]
      exact getD_set_ne _ _ _ _ (fun h => hq h.symm)
  · rw [List.set_eq_of_length_le (le_of_not_lt hlen), if_neg (by simp [hlen])]

/-! ### Characterisation of the chain-resolution recursion -/

/-- One-step unfolding of the recursion, with the remaining fuel kept
abstract. -/
lemma calcLenAux_succ (m : Map) (dir : Direction) (f : Nat) (pos : Vec2D) :
    calcLenAux m dir (f + 1) pos =
      if (pos + dirToVec dir).x < 0 ∨ (Width : Int) ≤ (pos + dirToVec dir).x ∨
          (pos + dirToVec dir).y < 0 ∨ (Height : Int) ≤ (pos + dirToVec dir).y then -1
      else if m.flagAt (pos + dirToVec dir) &&& Object ≠ 0 then
        if calcLenAux m dir f (pos + dirToVec dir) < 0 then
          calcLenAux m dir f (pos + dirToVec dir)
        else calcLenAux m dir f (pos + dirToVec dir) + 1
      else 0 := rfl

lemma notOut_iff (p : Vec2D) :
    ¬(p.x < 0 ∨ (Width : Int) ≤ p.x ∨ p.y < 0 ∨ (Height : Int) ≤ p.y) ↔ inBounds p := by
  unfold inBounds Width Height
  omega

lemma runK_succ_iff (m : Map) (pos v : Vec2D) (K : Nat) :
    runK m pos v (K + 1) ↔
      (inBounds (pos + v) ∧ m.flagAt (pos + v) &&& Object ≠ 0) ∧ runK m (pos + v) v K := by
  constructor
  · intro h
    refine ⟨?_, ?_⟩
    · have h0 := h 0 (by omega)
      rwa [show ((0 : Nat) : Int) + 1 = 1 by norm_num, cell_one] at h0
    · intro i hi
      have hh := h (i + 1) (by omega)
      rwa [show ((i + 1 : Nat) : Int) + 1 = ((i : Int) + 1) + 1 by push_cast; ring,
        cell_shift] at hh
  · rintro ⟨h0, h⟩ i hi
    cases i with
    | zero => rwa [show ((0 : Nat) : Int) + 1 = 1 by norm_num, cell_one]
    | succ j =>
      have hh := h j (by omega)
      rwa [show ((j + 1 : Nat) : Int) + 1 = ((j : Int) + 1) + 1 by push_cast; ring,
        cell_shift]

lemma boundary_shift (pos v : Vec2D) (K : Nat) :
    pos + (((K + 1 : Nat) : Int) + 1) * v = (pos + v) + ((K : Int) + 1) * v := by
  rw [show ((K + 1 : Nat) : Int) + 1 = ((K : Int) + 1) + 1 by push_cast; ring, cell_shift]

/-- If a `K`-box chain sits ahead of `pos` and the cell beyond it is in
bounds and box-free, the recursion returns exactly `K`, for every fuel
of at least `K + 1`. -/
lemma calcLenAux_of_run (m : Map) (dir : Direction) (K : Nat) :
    ∀ (pos : Vec2D) (f : Nat), K + 1 ≤ f →
      runK m pos (dirToVec dir) K →
      inBounds (pos + ((K : Int) + 1) * dirToVec dir) →
      m.flagAt (pos + ((K : Int) + 1) * dirToVec dir) &&& Object = 0 →
      calcLenAux m dir f pos = K := by
  induction K with
  | zero =>
    intro pos f hf hrun hin hfree
    obtain ⟨g, rfl⟩ : ∃ g, f = g + 1 := ⟨f - 1, by omega⟩
    rw [show ((0 : Nat) : Int) + 1 = 1 by norm_num, cell_one] at hin hfree
    simp only [calcLenAux]
    rw [if_neg ((notOut_iff _).mpr hin), if_neg (by simp [hfree])]
    norm_num
  | succ K IH =>
    intro pos f hf hrun hin hfree
    obtain ⟨g, rfl⟩ : ∃ g, f = g + 1 := ⟨f - 1, by omega⟩
    rw [runK_succ_iff] at hrun
    rw [boundary_shift] at hin hfree
    simp only [calcLenAux]
    rw [if_neg ((notOut_iff _).mpr hrun.1.1), if_pos hrun.1.2]
    rw [IH (pos + dirToVec dir) g (by omega) hrun.2 hin hfree]
    rw [if_neg (not_lt.mpr (Int.natCast_nonneg K))]
    push_cast
    ring

/-- If a `K`-box chain sits ahead of `pos` and the cell beyond it is out
of bounds, the recursion rejects with `-1`, for every fuel of at least
`K + 1`. -/
lemma calcLenAux_of_run_oob (m : Map) (dir : Direction) (K : Nat) :
    ∀ (pos : Vec2D) (f : Nat), K + 1 ≤ f →
      runK m pos (dirToVec dir) K →
      ¬ inBounds (pos + ((K : Int) + 1) * dirToVec dir) →
      calcLenAux m dir f pos = -1 := by
  induction K with
  | zero =>
    intro pos f hf hrun hout
    obtain ⟨g, rfl⟩ : ∃ g, f = g + 1 := ⟨f - 1, by omega⟩
    rw [show ((0 : Nat) : Int) + 1 = 1 by norm_num, cell_one] at hout
    have hcond : (pos + dirToVec dir).x < 0 ∨ (Width : Int) ≤ (pos + dirToVec dir).x ∨
        (pos + dirToVec dir).y < 0 ∨ (Height : Int) ≤ (pos + dirToVec dir).y := by
      by_contra hc
      exact hout ((notOut_iff _).mp hc)
    simp only [calcLenAux]
    rw [if_pos hcond]
  | succ K IH =>
    intro pos f hf hrun hout
    obtain ⟨g, rfl⟩ : ∃ g, f = g + 1 := ⟨f - 1, by omega⟩
    rw [runK_succ_iff] at hrun
    rw [boundary_shift] at hout
    simp only [calcLenAux]
    rw [if_neg ((notOut_iff _).mpr hrun.1.1), if_pos hrun.1.2]
    rw [IH (pos + dirToVec dir) g (by omega) hrun.2 hout]
    norm_num

lemma objRunAux_le (m : Map) (v : Vec2D) :
    ∀ (f : Nat) (pos : Vec2D), objRunAux m v f pos ≤ f
  | 0, _ => le_refl 0
  | f + 1, pos => by
    by_cases hcond : inBounds (pos + v) ∧ m.flagAt (pos + v) &&& Object ≠ 0
    · simp only [objRunAux, if_pos hcond]
      have := objRunAux_le m v f (pos + v)
      omega
    · simp only [objRunAux, if_neg hcond]
      omega

lemma objRunAux_run (m : Map) (v : Vec2D) :
    ∀ (f : Nat) (pos : Vec2D), runK m pos v (objRunAux m v f pos)
  | 0, pos => by
    intro i hi
    simp [objRunAux] at hi
  | f + 1, pos => by
    by_cases hcond : inBounds (pos + v) ∧ m.flagAt (pos + v) &&& Object ≠ 0
    · simp only [objRunAux, if_pos hcond]
      rw [runK_succ_iff]
      exact ⟨hcond, objRunAux_run m v f (pos + v)⟩
    · simp only [objRunAux, if_neg hcond]
      intro i hi
      exact absurd hi (by omega)

lemma objRunAux_max (m : Map) (v : Vec2D) :
    ∀ (f : Nat) (pos : Vec2D), objRunAux m v f pos < f →
      ¬(inBounds (pos + ((objRunAux m v f pos : Int) + 1) * v) ∧
        m.flagAt (pos + ((objRunAux m v f pos : Int) + 1) * v) &&& Object ≠ 0)
  | 0, pos => by
    intro h
    simp [objRunAux] at h
  | f + 1, pos => by
    by_cases hcond : inBounds (pos + v) ∧ m.flagAt (pos + v) &&& Object ≠ 0
    · simp only [objRunAux, if_pos hcond]
      intro hlt
      rw [boundary_shift]
      exact objRunAux_max m v f (pos + v) (by omega)
    · simp only [objRunAux, if_neg hcond]
      intro _
      rwa [show ((0 : Nat) : Int) + 1 = 1 by norm_num, cell_one]

/-- A chain along any of the four unit directions fits on the board, so
it has at most `max Width Height = 6` boxes. -/
lemma runK_le_six (m : Map) (pos : Vec2D) (dir : Direction) (K : Nat)
    (h : runK m pos (dirToVec dir) K) : K ≤ 6 := by
  by_contra hK
  push_neg at hK
  have h0 := (h 0 (by omega)).1
  have h6 := (h 6 (by omega)).1
  unfold inBounds Width Height at h0 h6
  cases dir <;> simp [dirToVec] at h0 h6 <;> omega

/-- Dichotomy: ahead of every position there is a (unique, at most 6
cells long) maximal box chain; the recursion either succeeds with
exactly its length, or rejects, depending only on the cell just past
it — and does so at every fuel beyond the chain length. -/
lemma calc_dichotomy (m : Map) (pos : Vec2D) (dir : Direction) :
    ∃ K : Nat, K ≤ 6 ∧ runK m pos (dirToVec dir) K ∧
      ((inBounds (pos + ((K : Int) + 1) * dirToVec dir) ∧
        m.flagAt (pos + ((K : Int) + 1) * dirToVec dir) &&& Object = 0 ∧
        ∀ f : Nat, K + 1 ≤ f → calcLenAux m dir f pos = K) ∨
       (¬ inBounds (pos + ((K : Int) + 1) * dirToVec dir) ∧
        ∀ f : Nat, K + 1 ≤ f → calcLenAux m dir f pos = -1)) := by
  have hrun := objRunAux_run m (dirToVec dir) 9 pos
  set K := objRunAux m (dirToVec dir) 9 pos with hK
  have hle : K ≤ 6 := runK_le_six m pos dir K hrun
  have hmax := objRunAux_max m (dirToVec dir) 9 pos (by omega)
  rw [← hK] at hmax
  refine ⟨K, hle, hrun, ?_⟩
  by_cases hin : inBounds (pos + ((K : Int) + 1) * dirToVec dir)
  · left
    have hfree : m.flagAt (pos + ((K : Int) + 1) * dirToVec dir) &&& Object = 0 := by
      by_contra ho
      exact hmax ⟨hin, ho⟩
    exact ⟨hin, hfree, fun f hf => calcLenAux_of_run m dir K pos f hf hrun hin hfree⟩
  · right
    exact ⟨hin, fun f hf => calcLenAux_of_run_oob m dir K pos f hf hrun hin⟩

/-- What a nonnegative result of `calculateObjectLength` says about the
board: a chain of exactly that many boxes, with an in-bounds box-free
cell just past it. -/
lemma calc_nonneg_spec (m : Map) (pos : Vec2D) (dir : Direction) (n : Nat)
    (h : m.calculateObjectLength pos dir = (n : Int)) :
    runK m pos (dirToVec dir) n ∧ n ≤ 6 ∧
      inBounds (pos + ((n : Int) + 1) * dirToVec dir) ∧
      m.flagAt (pos + ((n : Int) + 1) * dirToVec dir) &&& Object = 0 := by
  obtain ⟨K, hle, hrun, hcase⟩ := calc_dichotomy m pos dir
  have h9 : K + 1 ≤ Width + Height := by
    unfold Width Height
    omega
  rcases hcase with ⟨hin, hfree, hval⟩ | ⟨hout, hval⟩
  · have hv := hval (Width + Height) h9
    unfold Map.calculateObjectLength at h
    rw [hv] at h
    have hKn : K = n := by exact_mod_cast h
    subst hKn
    exact ⟨hrun, hle, hin, hfree⟩
  · have hv := hval (Width + Height) h9
    unfold Map.calculateObjectLength at h
    rw [hv] at h
    exfalso
    omega

/-! ### The commit phase: what a successful move writes where -/

lemma flagAt_mk (z : Vec2D) (m : Map) (q : Vec2D) :
    (Map.mk z m.grid).flagAt q = m.flagAt q := rfl

lemma moveOnlyPerson_person_pos (m : Map) (dir : Direction) :
    (m.moveOnlyPerson dir).person_pos = m.person_pos + dirToVec dir := rfl

lemma moveOnlyPerson_length (m : Map) (dir : Direction) :
    (m.moveOnlyPerson dir).grid.length = m.grid.length := by
  simp [Map.moveOnlyPerson, Map.updFlag]

/-- Cell-by-cell effect of `moveOnlyPerson`: `Person` is cleared at the
old cell, `Object` cleared and `Person` set at the new cell, everything
else untouched. -/
lemma flagAt_moveOnlyPerson (m : Map) (dir : Direction) (hlen : m.grid.length = 18)
    (hpos : inBounds m.person_pos) (hnext : inBounds (m.person_pos + dirToVec dir))
    (q : Vec2D) (hq : inBounds q) :
    (m.moveOnlyPerson dir).flagAt q =
      if q = m.person_pos then m.flagAt q &&& flagNot Person
      else if q = m.person_pos + dirToVec dir then
        (m.flagAt q &&& flagNot Object) ||| Person
      else m.flagAt q := by
  have hpn : m.person_pos ≠ m.person_pos + dirToVec dir := by
    have h01 := cell_ne dir m.person_pos 0 1 (by norm_num)
    rwa [cell_zero, cell_one] at h01
  have hip : idx m.person_pos < 18 := idx_lt _ hpos
  have hinx : idx (m.person_pos + dirToVec dir) < 18 := idx_lt _ hnext
  have hij : idx m.person_pos ≠ idx (m.person_pos + dirToVec dir) := by
    intro h
    exact hpn (idx_inj _ _ hpos hnext h)
  simp only [Map.moveOnlyPerson, updFlag_person_pos, flagAt_updFlag, updFlag_length,
    flagAt_mk]
  rw [hlen]
  by_cases hq1 : q = m.person_pos
  · subst hq1
    simp [hij, hip, hinx, hpn]
  · have hqij : idx q ≠ idx m.person_pos := by
      intro h
      exact hq1 (idx_inj _ _ hq hpos h)
    by_cases hq2 : q = m.person_pos + dirToVec dir
    · subst hq2
      simp [hij, Ne.symm hij, hip, hinx, hq1, Ne.symm hpn]
    · have hqin : idx q ≠ idx (m.person_pos + dirToVec dir) := by
        intro h
        exact hq2 (idx_inj _ _ hq hnext h)
      simp [hqij, hqin, hq1, hq2]

lemma target_eq (pos v : Vec2D) (n : Int) : (pos + v) + v * n = pos + (n + 1) * v := by
  rw [Vec2D.ext_iff]
  constructor <;> simp <;> ring

/-- A rejected move (negative chain count) returns the state unchanged. -/
lemma move_neg (m : Map) (dir : Direction)
    (h : m.calculateObjectLength m.person_pos dir < 0) : m.move dir = m := by
  simp only [Map.move]
  rw [if_pos h]

/-- Full description of a successful move: the person advances one cell,
the array keeps its length, and every in-bounds cell's flags change
exactly as the commit-phase writes dictate — `Person` cleared at the old
cell, `Object` cleared and `Person` set at the new cell, `Object` set on
the cell `n + 1` steps ahead when `n` boxes were pushed. -/
lemma move_spec (m : Map) (dir : Direction) (n : Nat)
    (hlen : m.grid.length = 18) (hpos : inBounds m.person_pos)
    (hcalc : m.calculateObjectLength m.person_pos dir = (n : Int)) :
    (m.move dir).person_pos = m.person_pos + dirToVec dir ∧
    (m.move dir).grid.length = 18 ∧
    ∀ q : Vec2D, inBounds q →
      (m.move dir).flagAt q =
        if q = m.person_pos then m.flagAt q &&& flagNot Person
        else if q = m.person_pos + dirToVec dir then
          (m.flagAt q &&& flagNot Object) ||| Person
        else if n ≠ 0 ∧ q = m.person_pos + ((n : Int) + 1) * dirToVec dir then
          m.flagAt q ||| Object
        else m.flagAt q := by
  obtain ⟨hrun, hle, hbin, hbfree⟩ := calc_nonneg_spec m m.person_pos dir n hcalc
  have hnext : inBounds (m.person_pos + dirToVec dir) := by
    cases n with
    | zero =>
      rwa [show ((0 : Nat) : Int) + 1 = 1 by norm_num, cell_one] at hbin
    | succ j =>
      have h0 := (hrun 0 (by omega)).1
      rwa [show ((0 : Nat) : Int) + 1 = 1 by norm_num, cell_one] at h0
  have hmposn := moveOnlyPerson_person_pos m dir
  have hmlen : (m.moveOnlyPerson dir).grid.length = 18 := by
    rw [moveOnlyPerson_length, hlen]
  simp only [Map.move]
  rw [hcalc, if_neg (not_lt.mpr (Int.natCast_nonneg n))]
  by_cases hn0 : n = 0
  · subst hn0
    rw [if_neg (by norm_num)]
    refine ⟨hmposn, hmlen, ?_⟩
    intro q hq
    rw [flagAt_moveOnlyPerson m dir hlen hpos hnext q hq]
    by_cases hq1 : q = m.person_pos
    · simp [hq1]
    · by_cases hq2 : q = m.person_pos + dirToVec dir <;> simp [hq1, hq2]
  · have hn1 : 1 ≤ n := by omega
    rw [if_pos (by exact_mod_cast hn0)]
    have htgt : (m.moveOnlyPerson dir).person_pos + dirToVec dir * (n : Int)
        = m.person_pos + ((n : Int) + 1) * dirToVec dir := by
      rw [hmposn, target_eq]
    rw [htgt]
    have htin : inBounds (m.person_pos + ((n : Int) + 1) * dirToVec dir) := hbin
    have hit : idx (m.person_pos + ((n : Int) + 1) * dirToVec dir) < 18 := idx_lt _ htin
    have hpt : m.person_pos ≠ m.person_pos + ((n : Int) + 1) * dirToVec dir := by
      have h0t := cell_ne dir m.person_pos 0 ((n : Int) + 1) (by omega)
      rwa [cell_zero] at h0t
    have hnt : m.person_pos + dirToVec dir ≠ m.person_pos + ((n : Int) + 1) * dirToVec dir := by
      have h1t := cell_ne dir m.person_pos 1 ((n : Int) + 1) (by omega)
      rwa [cell_one] at h1t
    refine ⟨by rw [updFlag_person_pos, hmposn], by rw [updFlag_length, hmlen], ?_⟩
    intro q hq
    rw [flagAt_updFlag]
    by_cases hqt : q = m.person_pos + ((n : Int) + 1) * dirToVec dir
    · subst hqt
      rw [if_pos ⟨rfl, by rw [hmlen]; exact hit⟩,
        flagAt_moveOnlyPerson m dir hlen hpos hnext _ htin]
      simp [Ne.symm hpt, Ne.symm hnt, hn0]
    · have hqit : idx q ≠ idx (m.person_pos + ((n : Int) + 1) * dirToVec dir) :=
        fun h => hqt (idx_inj _ _ hq htin h)
      rw [if_neg (by simp [hqit]), flagAt_moveOnlyPerson m dir hlen hpos hnext q hq]
      by_cases hq1 : q = m.person_pos
      · simp [hq1]
      · by_cases hq2 : q = m.person_pos + dirToVec dir <;> simp [hq1, hq2, hqt]

/-! ### Flat indices versus coordinates -/

lemma coordOf_inBounds (i : Nat) (h : i < 18) : inBounds (coordOf i) := by
  unfold coordOf inBounds Width Height
  refine ⟨?_, ?_, ?_, ?_⟩ <;> simp <;> omega

lemma idx_coordOf (i : Nat) (h : i < 18) : idx (coordOf i) = i := by
  unfold idx coordOf Width
  simp
  omega

lemma flagAt_coordOf (m : Map) (i : Nat) (h : i < 18) :
    m.flagAt (coordOf i) = m.grid.getD i 0 := by
  unfold Map.flagAt
  rw [idx_coordOf i h]

/-- Coordinate reading of `actorUnique`: an in-bounds cell carries
`Person` exactly when it is the cached person position. -/
lemma actorUnique_coord (m : Map) (h : actorUnique m) (q : Vec2D) (hq : inBounds q) :
    m.flagAt q &&& Person ≠ 0 ↔ q = m.person_pos := by
  obtain ⟨hlen, hpos, hbit⟩ := h
  have hb := hbit (idx q) (by rw [hlen] at *; exact idx_lt q hq)
  constructor
  · intro hx
    exact idx_inj _ _ hq hpos (hb.mp hx)
  · intro he
    subst he
    exact hb.mpr rfl

lemma actorUnique_of_coord (m : Map) (hlen : m.grid.length = 18)
    (hpos : inBounds m.person_pos)
    (h : ∀ q : Vec2D, inBounds q → (m.flagAt q &&& Person ≠ 0 ↔ q = m.person_pos)) :
    actorUnique m := by
  refine ⟨hlen, hpos, ?_⟩
  intro i hi
  have hq := h (coordOf i) (coordOf_inBounds i hi)
  rw [flagAt_coordOf m i hi] at hq
  rw [hq]
  constructor
  · intro he
    rw [← idx_coordOf i hi, he]
  · intro he
    refine idx_inj _ _ (coordOf_inBounds i hi) hpos ?_
    rw [idx_coordOf i hi, he]

/-! ### Preservation of the actor invariant by a move -/

lemma actorUnique_move (m : Map) (dir : Direction) (h : actorUnique m) :
    actorUnique (m.move dir) := by
  obtain ⟨hlen, hpos, _⟩ := id h
  rcases lt_or_ge (m.calculateObjectLength m.person_pos dir) 0 with hneg | hge
  · rw [move_neg m dir hneg]
    exact h
  · obtain ⟨n, hcalc⟩ : ∃ n : Nat, m.calculateObjectLength m.person_pos dir = (n : Int) :=
      ⟨(m.calculateObjectLength m.person_pos dir).toNat, by rw [Int.toNat_of_nonneg hge]⟩
    obtain ⟨hrun, hle, hbin, hbfree⟩ := calc_nonneg_spec m m.person_pos dir n hcalc
    have hnext : inBounds (m.person_pos + dirToVec dir) := by
      cases n with
      | zero => rwa [show ((0 : Nat) : Int) + 1 = 1 by norm_num, cell_one] at hbin
      | succ j =>
        have h0 := (hrun 0 (by omega)).1
        rwa [show ((0 : Nat) : Int) + 1 = 1 by norm_num, cell_one] at h0
    have hpn : m.person_pos ≠ m.person_pos + dirToVec dir := by
      have h01 := cell_ne dir m.person_pos 0 1 (by norm_num)
      rwa [cell_zero, cell_one] at h01
    obtain ⟨hppos, hlen2, hchar⟩ := move_spec m dir n hlen hpos hcalc
    refine actorUnique_of_coord _ hlen2 (by rw [hppos]; exact hnext) ?_
    intro q hq
    rw [hchar q hq, hppos]
    by_cases hq1 : q = m.person_pos
    · subst hq1
      rw [if_pos rfl, clearP_person]
      simp [hpn]
    · rw [if_neg hq1]
      by_cases hq2 : q = m.person_pos + dirToVec dir
      · subst hq2
        rw [if_pos rfl]
        have ho := orP_person (m.flagAt (m.person_pos + dirToVec dir) &&& flagNot Object)
        simp [ho]
      · rw [if_neg hq2]
        by_cases hq3 : n ≠ 0 ∧ q = m.person_pos + ((n : Int) + 1) * dirToVec dir
        · obtain ⟨hn0, hqt⟩ := hq3
          subst hqt
          rw [if_pos ⟨hn0, rfl⟩, orO_person,
            actorUnique_coord m h _ hq]
          have hpt : m.person_pos ≠ m.person_pos + ((n : Int) + 1) * dirToVec dir := by
            have h0t := cell_ne dir m.person_pos 0 ((n : Int) + 1) (by omega)
            rwa [cell_zero] at h0t
          simp [Ne.symm hpt, hq2]
        · rw [if_neg hq3, actorUnique_coord m h q hq]
          simp [hq1, hq2]

/-! ### Bits untouched by the writes of a move -/

/-- A read-modify-write whose value transformation preserves a bit
preserves that bit at every cell — no bounds assumptions needed, since
the write lands at the very index the value was read from. -/
lemma flagAt_updFlag_bit (m : Map) (p : Vec2D) (f : Nat → Nat) (b : Nat)
    (hf : ∀ g, f g &&& b = g &&& b) (q : Vec2D) :
    (m.updFlag p f).flagAt q &&& b = m.flagAt q &&& b := by
  rw [flagAt_updFlag]
  by_cases hc : idx q = idx p ∧ idx p < m.grid.length
  · rw [if_pos hc, hf]
    unfold Map.flagAt
    rw [hc.1]
  · rw [if_neg hc]

/-- `move` never changes the `Goal` bit of any cell. -/
lemma move_goal_bit (m : Map) (dir : Direction) (q : Vec2D) :
    (m.move dir).flagAt q &&& Goal = m.flagAt q &&& Goal := by
  rcases lt_or_ge (m.calculateObjectLength m.person_pos dir) 0 with hneg | hge
  · rw [move_neg m dir hneg]
  · have hmop : ∀ r : Vec2D,
        (m.moveOnlyPerson dir).flagAt r &&& Goal = m.flagAt r &&& Goal := by
      intro r
      simp only [Map.moveOnlyPerson]
      rw [flagAt_updFlag_bit _ _ _ _ orP_goal, flagAt_updFlag_bit _ _ _ _ clearO_goal,
        flagAt_mk, flagAt_updFlag_bit _ _ _ _ clearP_goal]
    simp only [Map.move]
    rw [if_neg (not_lt.mpr hge)]
    by_cases hn : m.calculateObjectLength m.person_pos dir ≠ 0
    · rw [if_pos hn, flagAt_updFlag_bit _ _ _ _ orO_goal, hmop]
    · rw [if_neg hn, hmop]

lemma applyMoves_goal_bit (ds : List Direction) :
    ∀ (m : Map) (q : Vec2D),
      (applyMoves m ds).flagAt q &&& Goal = m.flagAt q &&& Goal := by
  induction ds with
  | nil => intro m q; rfl
  | cons d ds IH =>
    intro m q
    show (applyMoves (m.move d) ds).flagAt q &&& Goal = _
    rw [IH (m.move d) q, move_goal_bit]

/-! ### Preservation of actor/box separation -/

lemma noOverlap_coord (m : Map) (hlen : m.grid.length = 18) (h : noOverlap m)
    (q : Vec2D) (hq : inBounds q) :
    m.flagAt q &&& Person = 0 ∨ m.flagAt q &&& Object = 0 := by
  have hb := h (idx q) (by rw [← hlen]; exact hlen ▸ idx_lt q hq)
  exact hb

lemma noOverlap_move (m : Map) (dir : Direction) (hA : actorUnique m)
    (hN : noOverlap m) : noOverlap (m.move dir) := by
  obtain ⟨hlen, hpos, _⟩ := id hA
  rcases lt_or_ge (m.calculateObjectLength m.person_pos dir) 0 with hneg | hge
  · rw [move_neg m dir hneg]
    exact hN
  · obtain ⟨n, hcalc⟩ : ∃ n : Nat, m.calculateObjectLength m.person_pos dir = (n : Int) :=
      ⟨(m.calculateObjectLength m.person_pos dir).toNat, by rw [Int.toNat_of_nonneg hge]⟩
    obtain ⟨hppos, hlen2, hchar⟩ := move_spec m dir n hlen hpos hcalc
    intro i hi
    have hq : inBounds (coordOf i) := coordOf_inBounds i hi
    have hflag : (m.move dir).grid.getD i 0 = (m.move dir).flagAt (coordOf i) :=
      (flagAt_coordOf _ i hi).symm
    rw [hflag, hchar (coordOf i) hq]
    by_cases hq1 : coordOf i = m.person_pos
    · rw [if_pos hq1, clearP_person]
      left
      rfl
    · rw [if_neg hq1]
      by_cases hq2 : coordOf i = m.person_pos + dirToVec dir
      · rw [if_pos hq2]
        right
        rw [orP_object, clearO_object]
      · rw [if_neg hq2]
        by_cases hq3 : n ≠ 0 ∧ coordOf i = m.person_pos + ((n : Int) + 1) * dirToVec dir
        · rw [if_pos hq3, orO_person]
          left
          have hpt : m.person_pos ≠ m.person_pos + ((n : Int) + 1) * dirToVec dir := by
            have h0t := cell_ne dir m.person_pos 0 ((n : Int) + 1) (by omega)
            rwa [cell_zero] at h0t
          have := actorUnique_coord m hA (coordOf i) hq
          by_contra hne
          exact (hq3.2 ▸ hpt) (this.mp hne).symm
        · rw [if_neg hq3]
          exact noOverlap_coord m hlen hN (coordOf i) hq

/-! ### Box counting -/

lemma countObjects_mk (z : Vec2D) (m : Map) :
    countObjects (Map.mk z m.grid) = countObjects m := rfl

lemma countObjects_updFlag_eq (m : Map) (p : Vec2D) (f : Nat → Nat)
    (hX : f (m.flagAt p) &&& Object = m.flagAt p &&& Object) :
    countObjects (m.updFlag p f) = countObjects m := by
  unfold countObjects Map.updFlag
  simp only [Map.flagAt] at hX ⊢
  by_cases h : idx p < m.grid.length
  · have hc := countP_set_add (fun g => g &&& Object != 0) m.grid (idx p)
      (f (m.grid.getD (idx p) 0)) h
    simp only at hc
    simp only [show ((f (m.grid.getD (idx p) 0) &&& Object != 0) : Bool)
        = ((m.grid.getD (idx p) 0 &&& Object != 0) : Bool) from by rw [hX]] at hc
    exact Nat.add_right_cancel hc
  · rw [List.set_eq_of_length_le (le_of_not_lt h)]

lemma countObjects_updFlag_clear (m : Map) (p : Vec2D) (f : Nat → Nat)
    (hp : idx p < m.grid.length) (hnew : f (m.flagAt p) &&& Object = 0)
    (hold : m.flagAt p &&& Object ≠ 0) :
    countObjects (m.updFlag p f) + 1 = countObjects m := by
  unfold countObjects Map.updFlag
  simp only [Map.flagAt] at hnew hold ⊢
  have hc := countP_set_add (fun g => g &&& Object != 0) m.grid (idx p)
    (f (m.grid.getD (idx p) 0)) hp
  simp only at hc
  simp only [show ((f (m.grid.getD (idx p) 0) &&& Object != 0) : Bool) = false from by
      rw [hnew]; rfl,
    show ((m.grid.getD (idx p) 0 &&& Object != 0) : Bool) = true from by
      simp only [bne_iff_ne]; exact hold] at hc
  simpa using hc

lemma countObjects_updFlag_set (m : Map) (p : Vec2D) (f : Nat → Nat)
    (hp : idx p < m.grid.length) (hnew : f (m.flagAt p) &&& Object ≠ 0)
    (hold : m.flagAt p &&& Object = 0) :
    countObjects (m.updFlag p f) = countObjects m + 1 := by
  unfold countObjects Map.updFlag
  simp only [Map.flagAt] at hnew hold ⊢
  have hc := countP_set_add (fun g => g &&& Object != 0) m.grid (idx p)
    (f (m.grid.getD (idx p) 0)) hp
  simp only at hc
  simp only [show ((f (m.grid.getD (idx p) 0) &&& Object != 0) : Bool) = true from by
      simp only [bne_iff_ne]; exact hnew,
    show ((m.grid.getD (idx p) 0 &&& Object != 0) : Bool) = false from by
      rw [hold]; rfl] at hc
  simpa using hc

/-- Counting through `moveOnlyPerson`: the only `Object` bit it can
change is the one it clears on the person's destination cell. -/
lemma countObjects_moveOnlyPerson (m : Map) (dir : Direction)
    (hlen : m.grid.length = 18) (hpos : inBounds m.person_pos)
    (hnext : inBounds (m.person_pos + dirToVec dir)) :
    countObjects (m.moveOnlyPerson dir) +
        (if m.flagAt (m.person_pos + dirToVec dir) &&& Object ≠ 0 then 1 else 0)
      = countObjects m := by
  simp only [Map.moveOnlyPerson, updFlag_person_pos]
  have hA : countObjects (m.updFlag m.person_pos (fun g => g &&& flagNot Person))
      = countObjects m :=
    countObjects_updFlag_eq _ _ _ (clearP_object _)
  set A := m.updFlag m.person_pos (fun g => g &&& flagNot Person) with hAdef
  set B : Map := Map.mk (m.person_pos + dirToVec dir) A.grid with hBdef
  have hBcount : countObjects B = countObjects m := by rw [hBdef, countObjects_mk, hA]
  have hBlen : B.grid.length = 18 := by
    rw [hBdef]
    show A.grid.length = 18
    rw [hAdef, updFlag_length, hlen]
  have hBbit : B.flagAt (m.person_pos + dirToVec dir) &&& Object
      = m.flagAt (m.person_pos + dirToVec dir) &&& Object := by
    rw [hBdef]
    show A.flagAt _ &&& Object = _
    rw [hAdef, flagAt_updFlag_bit _ _ _ _ clearP_object]
  set C := B.updFlag (m.person_pos + dirToVec dir) (fun g => g &&& flagNot Object) with hCdef
  have hD : countObjects (C.updFlag (m.person_pos + dirToVec dir) (fun g => g ||| Person))
      = countObjects C :=
    countObjects_updFlag_eq _ _ _ (orP_object _)
  rw [hD]
  by_cases hobj : m.flagAt (m.person_pos + dirToVec dir) &&& Object ≠ 0
  · rw [if_pos hobj, hCdef]
    rw [countObjects_updFlag_clear B _ _ (by rw [hBlen]; exact idx_lt _ hnext)
      (clearO_object _) (by rw [hBbit]; exact hobj), hBcount]
  · rw [if_neg hobj]
    have hobj0 : m.flagAt (m.person_pos + dirToVec dir) &&& Object = 0 := by
      by_contra hx
      exact hobj hx
    rw [hCdef, countObjects_updFlag_eq B _ _ (by rw [clearO_object, hBbit, hobj0]), hBcount]
    rfl

/-! ### The coordinates a move touches -/

lemma calcLenReadsAux_inBounds (m : Map) (dir : Direction) :
    ∀ (f : Nat) (pos q : Vec2D), q ∈ calcLenReadsAux m dir f pos → inBounds q
  | 0, pos, q => by simp [calcLenReadsAux]
  | f + 1, pos, q => by
    simp only [calcLenReadsAux]
    by_cases hb : (pos + dirToVec dir).x < 0 ∨ (Width : Int) ≤ (pos + dirToVec dir).x ∨
        (pos + dirToVec dir).y < 0 ∨ (Height : Int) ≤ (pos + dirToVec dir).y
    · rw [if_pos hb]
      intro h
      simp at h
    · rw [if_neg hb]
      have hin : inBounds (pos + dirToVec dir) := (notOut_iff _).mp hb
      by_cases ho : m.flagAt (pos + dirToVec dir) &&& Object ≠ 0
      · rw [if_pos ho]
        intro hmem
        rcases List.mem_cons.mp hmem with rfl | hmem2
        · exact hin
        · exact calcLenReadsAux_inBounds m dir f (pos + dirToVec dir) q hmem2
      · rw [if_neg ho]
        intro hmem
        rw [List.mem_singleton.mp hmem]
        exact hin

/-- One recursion step of the resolution: a box directly ahead whose own
chain resolves to `prev ≥ 0` makes this level resolve to `prev + 1`. -/
lemma calc_step (m : Map) (dir : Direction) (q : Vec2D) (prev : Int)
    (h1 : inBounds (q + dirToVec dir)) (h2 : m.flagAt (q + dirToVec dir) &&& Object ≠ 0)
    (h3 : m.calculateObjectLength (q + dirToVec dir) dir = prev) (h4 : 0 ≤ prev) :
    m.calculateObjectLength q dir = prev + 1 := by
  have h8 : calcLenAux m dir 8 (q + dirToVec dir) = prev := by
    obtain ⟨K, hle, _, hcase⟩ := calc_dichotomy m (q + dirToVec dir) dir
    have hWH : K + 1 ≤ Width + Height := by
      unfold Width Height
      omega
    rcases hcase with ⟨_, _, hval⟩ | ⟨_, hval⟩
    · rw [← h3]
      show _ = calcLenAux m dir (Width + Height) (q + dirToVec dir)
      rw [hval 8 (by omega), hval (Width + Height) hWH]
    · rw [← h3]
      show _ = calcLenAux m dir (Width + Height) (q + dirToVec dir)
      rw [hval 8 (by omega), hval (Width + Height) hWH]
  show calcLenAux m dir (8 + 1) q = prev + 1
  rw [calcLenAux_succ, if_neg ((notOut_iff _).mpr h1), if_pos h2, h8,
    if_neg (not_lt.mpr h4)]

lemma applyMoves_inv (ds : List Direction) :
    ∀ m : Map, actorUnique m → noOverlap m →
      actorUnique (applyMoves m ds) ∧ noOverlap (applyMoves m ds) := by
  induction ds with
  | nil => exact fun m h1 h2 => ⟨h1, h2⟩
  | cons d ds IH =>
    intro m h1 h2
    exact IH (m.move d) (actorUnique_move m d h1) (noOverlap_move m d h1 h2)

/-! ### The claims -/

/-- Claim C9: the chain scan terminates: ahead of any position sits a
maximal chain of `K ≤ 6 = max Width Height` boxes; the recursion's value
is already determined with fuel `K + 1` — after exactly `K` recursive
steps — and is the same at every larger fuel; the scan ends either at an
in-bounds box-free cell (success, value `K`) or at an out-of-bounds cell
(failure, value `-1`). -/
theorem chain_resolution_terminates (m : Map) (pos : Vec2D) (dir : Direction) :
    ∃ K : Nat, K ≤ 6 ∧ runK m pos (dirToVec dir) K ∧
      ((inBounds (pos + ((K : Int) + 1) * dirToVec dir) ∧
        m.flagAt (pos + ((K : Int) + 1) * dirToVec dir) &&& Object = 0 ∧
        m.calculateObjectLength pos dir = (K : Int) ∧
        ∀ f : Nat, K + 1 ≤ f → calcLenAux m dir f pos = (K : Int)) ∨
       (¬ inBounds (pos + ((K : Int) + 1) * dirToVec dir) ∧
        m.calculateObjectLength pos dir = -1 ∧
        ∀ f : Nat, K + 1 ≤ f → calcLenAux m dir f pos = -1)) := by
  obtain ⟨K, hle, hrun, hcase⟩ := calc_dichotomy m pos dir
  have hWH : K + 1 ≤ Width + Height := by
    unfold Width Height
    omega
  refine ⟨K, hle, hrun, ?_⟩
  rcases hcase with ⟨hin, hfree, hval⟩ | ⟨hout, hval⟩
  · exact Or.inl ⟨hin, hfree, hval (Width + Height) hWH, hval⟩
  · exact Or.inr ⟨hout, hval (Width + Height) hWH, hval⟩

/-- Claim C7: is-goal flags are static level geometry: after every
finite sequence of moves from the initial layout, every cell's `Goal`
bit equals its `Goal` bit in the initial layout. -/
theorem goal_flags_invariant (ds : List Direction) (q : Vec2D) :
    (applyMoves initialMap ds).flagAt q &&& Goal = initialMap.flagAt q &&& Goal :=
  applyMoves_goal_bit ds initialMap q

/-- Claim C3: an illegal move — the destination cell out of bounds, or a
box chain ahead that runs off the board edge — changes no state at all:
the whole map, every cell's flags and the tracked person position are
exactly as before, and no error is raised (the function is total). -/
theorem illegal_move_is_noop (m : Map) (dir : Direction)
    (h : ¬ inBounds (m.person_pos + dirToVec dir) ∨
      ∃ K : Nat, runK m m.person_pos (dirToVec dir) K ∧
        ¬ inBounds (m.person_pos + ((K : Int) + 1) * dirToVec dir)) :
    m.move dir = m ∧ (∀ q : Vec2D, (m.move dir).flagAt q = m.flagAt q) ∧
      (m.move dir).person_pos = m.person_pos := by
  have hneg : m.calculateObjectLength m.person_pos dir = -1 := by
    rcases h with hout | ⟨K, hrun, hout⟩
    · exact calcLenAux_of_run_oob m dir 0 m.person_pos (Width + Height)
        (by unfold Width Height; omega) (fun i hi => absurd hi (by omega))
        (by rwa [show ((0 : Nat) : Int) + 1 = 1 by norm_num, cell_one])
    · have hle := runK_le_six m m.person_pos dir K hrun
      exact calcLenAux_of_run_oob m dir K m.person_pos (Width + Height)
        (by unfold Width Height; omega) hrun hout
  have hm := move_neg m dir (by rw [hneg]; norm_num)
  exact ⟨hm, fun q => by rw [hm], by rw [hm]⟩

theorem illegal_move_is_noop_witness :
    (¬ inBounds (initialMap.person_pos + dirToVec Direction.Up) ∨
      ∃ K : Nat, runK initialMap initialMap.person_pos (dirToVec Direction.Up) K ∧
        ¬ inBounds (initialMap.person_pos + ((K : Int) + 1) * dirToVec Direction.Up)) ∧
    initialMap.move Direction.Up = initialMap :=
  ⟨Or.inl (by decide),
    (illegal_move_is_noop initialMap Direction.Up (Or.inl (by decide))).1⟩

/-- Claim C2, counterexample: a successful move Left on `mPush` resolves
exactly `N = 1` box, yet afterwards the cell at (original person
position + offset × 1) — which is the person's own destination — has its
`Object` flag CLEAR, not set; the pushed box's flag lands at
(original position + offset × 2) instead. -/
theorem commit_offset_counterexample :
    mPush.calculateObjectLength mPush.person_pos Direction.Left = 1 ∧
    (mPush.move Direction.Left).flagAt
        (mPush.person_pos + (1 : Int) * dirToVec Direction.Left) &&& Object = 0 ∧
    (mPush.move Direction.Left).flagAt
        (mPush.person_pos + ((1 : Int) + 1) * dirToVec Direction.Left) &&& Object ≠ 0 := by
  decide

/-- Claim C2, amended: after a successful move that resolves `N > 0`
boxes, the `Object` flag is set on the cell at (original person position
+ offset × (N + 1)) — equivalently, `N` cells past the person's
post-move position. -/
theorem commit_sets_object_one_past_new_pos (m : Map) (dir : Direction) (n : Nat)
    (hlen : m.grid.length = 18) (hpos : inBounds m.person_pos)
    (hcalc : m.calculateObjectLength m.person_pos dir = (n : Int)) (hn : n ≠ 0) :
    (m.move dir).flagAt (m.person_pos + ((n : Int) + 1) * dirToVec dir) &&& Object ≠ 0 := by
  obtain ⟨hrun, hle, hbin, hbfree⟩ := calc_nonneg_spec m m.person_pos dir n hcalc
  obtain ⟨hppos, hlen2, hchar⟩ := move_spec m dir n hlen hpos hcalc
  have hpt : m.person_pos ≠ m.person_pos + ((n : Int) + 1) * dirToVec dir := by
    have h0t := cell_ne dir m.person_pos 0 ((n : Int) + 1) (by omega)
    rwa [cell_zero] at h0t
  have hnt : m.person_pos + dirToVec dir
      ≠ m.person_pos + ((n : Int) + 1) * dirToVec dir := by
    have h1t := cell_ne dir m.person_pos 1 ((n : Int) + 1) (by omega)
    rwa [cell_one] at h1t
  rw [hchar _ hbin, if_neg (Ne.symm hpt), if_neg (Ne.symm hnt), if_pos ⟨hn, rfl⟩]
  exact orO_object _

theorem commit_sets_object_one_past_new_pos_witness :
    mPush.grid.length = 18 ∧ inBounds mPush.person_pos ∧
    mPush.calculateObjectLength mPush.person_pos Direction.Left = ((1 : Nat) : Int) ∧
    (mPush.move Direction.Left).flagAt
        (mPush.person_pos + (((1 : Nat) : Int) + 1) * dirToVec Direction.Left)
      &&& Object ≠ 0 :=
  ⟨by decide, by decide, by decide,
    commit_sets_object_one_past_new_pos mPush Direction.Left 1 (by decide) (by decide)
      (by decide) (by decide)⟩

/-- Claim C4: from any state in which exactly one cell carries the actor
(at the cached, in-bounds person position), after `move` — successful or
rejected — exactly one cell carries the actor, and it is the cell at the
tracked person position. -/
theorem actor_flag_invariant_after_move (m : Map) (dir : Direction) (h : actorUnique m) :
    actorUnique (m.move dir) ∧
      ∀ q : Vec2D, inBounds q →
        ((m.move dir).flagAt q &&& Person ≠ 0 ↔ q = (m.move dir).person_pos) := by
  have hu := actorUnique_move m dir h
  exact ⟨hu, fun q hq => actorUnique_coord _ hu q hq⟩

theorem actor_flag_invariant_after_move_witness :
    actorUnique initialMap ∧ actorUnique (initialMap.move Direction.Left) :=
  ⟨by decide, (actor_flag_invariant_after_move initialMap Direction.Left (by decide)).1⟩

/-- Claim C5: if the in-bounds cell directly ahead of the actor carries
no box, the move succeeds with chain count 0 and exactly the two actor
cells change: the old cell loses exactly its `Person` bit (so its flags
change), the new cell becomes its old flags with `Object` cleared (a
no-op here) and `Person` set (so its flags change), and every other
in-bounds cell keeps its flags verbatim. -/
theorem free_step_changes_exactly_two_cells (m : Map) (dir : Direction)
    (h : actorUnique m)
    (hnext : inBounds (m.person_pos + dirToVec dir))
    (hempty : m.flagAt (m.person_pos + dirToVec dir) &&& Object = 0) :
    m.calculateObjectLength m.person_pos dir = 0 ∧
    (m.move dir).person_pos = m.person_pos + dirToVec dir ∧
    (m.move dir).flagAt m.person_pos = m.flagAt m.person_pos &&& flagNot Person ∧
    (m.move dir).flagAt m.person_pos ≠ m.flagAt m.person_pos ∧
    (m.move dir).flagAt (m.person_pos + dirToVec dir)
      = (m.flagAt (m.person_pos + dirToVec dir) &&& flagNot Object) ||| Person ∧
    (m.move dir).flagAt (m.person_pos + dirToVec dir)
      ≠ m.flagAt (m.person_pos + dirToVec dir) ∧
    ∀ q : Vec2D, inBounds q → q ≠ m.person_pos → q ≠ m.person_pos + dirToVec dir →
      (m.move dir).flagAt q = m.flagAt q := by
  obtain ⟨hlen, hpos, -⟩ := id h
  have hcalc : m.calculateObjectLength m.person_pos dir = ((0 : Nat) : Int) :=
    calcLenAux_of_run m dir 0 m.person_pos (Width + Height)
      (by unfold Width Height; omega) (fun i hi => absurd hi (by omega))
      (by rwa [show ((0 : Nat) : Int) + 1 = 1 by norm_num, cell_one])
      (by rwa [show ((0 : Nat) : Int) + 1 = 1 by norm_num, cell_one])
  obtain ⟨hppos, hlen2, hchar⟩ := move_spec m dir 0 hlen hpos hcalc
  have hpn : m.person_pos ≠ m.person_pos + dirToVec dir := by
    have h01 := cell_ne dir m.person_pos 0 1 (by norm_num)
    rwa [cell_zero, cell_one] at h01
  have hPold : m.flagAt m.person_pos &&& Person ≠ 0 :=
    (actorUnique_coord m h m.person_pos hpos).mpr rfl
  have hPnew : m.flagAt (m.person_pos + dirToVec dir) &&& Person = 0 := by
    by_contra hx
    exact hpn ((actorUnique_coord m h _ hnext).mp hx).symm
  have hvOld : (m.move dir).flagAt m.person_pos
      = m.flagAt m.person_pos &&& flagNot Person := by
    rw [hchar _ hpos, if_pos rfl]
  have hvNew : (m.move dir).flagAt (m.person_pos + dirToVec dir)
      = (m.flagAt (m.person_pos + dirToVec dir) &&& flagNot Object) ||| Person := by
    rw [hchar _ hnext, if_neg (Ne.symm hpn), if_pos rfl]
  refine ⟨by exact_mod_cast hcalc, hppos, hvOld, ?_, hvNew, ?_, ?_⟩
  · rw [hvOld]
    intro he
    have hb := congrArg (fun g => g &&& Person) he
    simp only [clearP_person] at hb
    exact hPold hb.symm
  · rw [hvNew]
    intro he
    have hb := congrArg (fun g => g &&& Person) he
    simp only at hb
    exact orP_person (m.flagAt (m.person_pos + dirToVec dir) &&& flagNot Object)
      (hb.trans hPnew)
  · intro q hq hq1 hq2
    rw [hchar q hq, if_neg hq1, if_neg hq2, if_neg (by simp)]

theorem free_step_changes_exactly_two_cells_witness :
    actorUnique initialMap ∧
    inBounds (initialMap.person_pos + dirToVec Direction.Left) ∧
    initialMap.flagAt (initialMap.person_pos + dirToVec Direction.Left) &&& Object = 0 ∧
    initialMap.calculateObjectLength initialMap.person_pos Direction.Left = 0 :=
  ⟨by decide, by decide, by decide,
    (free_step_changes_exactly_two_cells initialMap Direction.Left (by decide) (by decide)
      (by decide)).1⟩

/-- Claim C6: every `move` — successful or rejected — preserves the
number of cells whose `Object` flag is set (boxes are never created or
destroyed), and a rejected move leaves every flag bit-for-bit unchanged
(the whole state is returned as-is). -/
theorem move_preserves_object_count (m : Map) (dir : Direction)
    (hlen : m.grid.length = 18) (hpos : inBounds m.person_pos) :
    countObjects (m.move dir) = countObjects m ∧
      (m.calculateObjectLength m.person_pos dir < 0 →
        (∀ q : Vec2D, (m.move dir).flagAt q = m.flagAt q) ∧ m.move dir = m) := by
  constructor
  · rcases lt_or_ge (m.calculateObjectLength m.person_pos dir) 0 with hneg | hge
    · rw [move_neg m dir hneg]
    · obtain ⟨n, hcalc⟩ : ∃ n : Nat, m.calculateObjectLength m.person_pos dir = (n : Int) :=
        ⟨(m.calculateObjectLength m.person_pos dir).toNat, by rw [Int.toNat_of_nonneg hge]⟩
      obtain ⟨hrun, hle, hbin, hbfree⟩ := calc_nonneg_spec m m.person_pos dir n hcalc
      have hnext : inBounds (m.person_pos + dirToVec dir) := by
        cases n with
        | zero => rwa [show ((0 : Nat) : Int) + 1 = 1 by norm_num, cell_one] at hbin
        | succ j =>
          have h0 := (hrun 0 (by omega)).1
          rwa [show ((0 : Nat) : Int) + 1 = 1 by norm_num, cell_one] at h0
      have hcnt := countObjects_moveOnlyPerson m dir hlen hpos hnext
      simp only [Map.move]
      rw [hcalc, if_neg (not_lt.mpr (Int.natCast_nonneg n))]
      by_cases hn0 : n = 0
      · subst hn0
        rw [if_neg (by norm_num)]
        have hfree1 : m.flagAt (m.person_pos + dirToVec dir) &&& Object = 0 := by
          rwa [show ((0 : Nat) : Int) + 1 = 1 by norm_num, cell_one] at hbfree
        rw [if_neg (by simp [hfree1])] at hcnt
        simpa using hcnt
      · rw [if_pos (by exact_mod_cast hn0)]
        have htgt : (m.moveOnlyPerson dir).person_pos + dirToVec dir * (n : Int)
            = m.person_pos + ((n : Int) + 1) * dirToVec dir := by
          rw [moveOnlyPerson_person_pos, target_eq]
        rw [htgt]
        have hobj1 : m.flagAt (m.person_pos + dirToVec dir) &&& Object ≠ 0 := by
          have h0 := (hrun 0 (by omega)).2
          rwa [show ((0 : Nat) : Int) + 1 = 1 by norm_num, cell_one] at h0
        rw [if_pos hobj1] at hcnt
        have hpt : m.person_pos ≠ m.person_pos + ((n : Int) + 1) * dirToVec dir := by
          have h0t := cell_ne dir m.person_pos 0 ((n : Int) + 1) (by omega)
          rwa [cell_zero] at h0t
        have hnt : m.person_pos + dirToVec dir
            ≠ m.person_pos + ((n : Int) + 1) * dirToVec dir := by
          have h1t := cell_ne dir m.person_pos 1 ((n : Int) + 1) (by omega)
          rwa [cell_one] at h1t
        have hmopfree : (m.moveOnlyPerson dir).flagAt
            (m.person_pos + ((n : Int) + 1) * dirToVec dir) &&& Object = 0 := by
          rw [flagAt_moveOnlyPerson m dir hlen hpos hnext _ hbin, if_neg (Ne.symm hpt),
            if_neg (Ne.symm hnt)]
          exact hbfree
        rw [countObjects_updFlag_set (m.moveOnlyPerson dir) _ _
          (by rw [moveOnlyPerson_length, hlen]; exact idx_lt _ hbin)
          (orO_object _) hmopfree]
        exact hcnt
  · intro hneg
    have hm := move_neg m dir hneg
    exact ⟨fun q => by rw [hm], hm⟩

theorem move_preserves_object_count_witness :
    initialMap.grid.length = 18 ∧ inBounds initialMap.person_pos ∧
    countObjects (initialMap.move Direction.Right) = countObjects initialMap :=
  ⟨by decide, by decide,
    (move_preserves_object_count initialMap Direction.Right (by decide) (by decide)).1⟩

/-- Claim C8: starting from a state whose actor position is in bounds,
every coordinate `move` hands to the unchecked accessor — each read of
the recursive chain scan (recorded only after its bounds test passed)
and each commit-phase read-modify-write — lies within
[0, Width) × [0, Height). -/
theorem move_accesses_in_bounds (m : Map) (dir : Direction)
    (hpos : inBounds m.person_pos) :
    ∀ q ∈ m.moveAccesses dir, inBounds q := by
  intro q hq
  simp only [Map.moveAccesses] at hq
  rcases List.mem_append.mp hq with hr | hc
  · exact calcLenReadsAux_inBounds m dir (Width + Height) m.person_pos q hr
  · rcases lt_or_ge (m.calculateObjectLength m.person_pos dir) 0 with hneg | hge
    · rw [if_pos hneg] at hc
      simp at hc
    · obtain ⟨n, hcalc⟩ : ∃ n : Nat, m.calculateObjectLength m.person_pos dir = (n : Int) :=
        ⟨(m.calculateObjectLength m.person_pos dir).toNat, by rw [Int.toNat_of_nonneg hge]⟩
      obtain ⟨hrun, hle, hbin, hbfree⟩ := calc_nonneg_spec m m.person_pos dir n hcalc
      have hnext : inBounds (m.person_pos + dirToVec dir) := by
        cases n with
        | zero => rwa [show ((0 : Nat) : Int) + 1 = 1 by norm_num, cell_one] at hbin
        | succ j =>
          have h0 := (hrun 0 (by omega)).1
          rwa [show ((0 : Nat) : Int) + 1 = 1 by norm_num, cell_one] at h0
      rw [if_neg (not_lt.mpr hge)] at hc
      rcases List.mem_append.mp hc with h2 | h3
      · rcases List.mem_cons.mp h2 with rfl | h2b
        · exact hpos
        · rw [List.mem_singleton.mp h2b]
          exact hnext
      · by_cases hn0 : m.calculateObjectLength m.person_pos dir ≠ 0
        · rw [if_pos hn0] at h3
          rw [List.mem_singleton.mp h3, hcalc, target_eq]
          exact hbin
        · rw [if_neg hn0] at h3
          simp at h3

theorem move_accesses_in_bounds_witness :
    inBounds initialMap.person_pos ∧
      ∀ q ∈ initialMap.moveAccesses Direction.Left, inBounds q :=
  ⟨by decide, move_accesses_in_bounds initialMap Direction.Left (by decide)⟩

/-- Claim C10: in the initial layout and after every finite sequence of
moves, no in-bounds cell carrying the actor also carries a box — the
commit phase always clears `Object` on the actor's destination before
setting `Person` there. -/
theorem actor_never_on_object_cell (ds : List Direction) (q : Vec2D) (hq : inBounds q)
    (hP : (applyMoves initialMap ds).flagAt q &&& Person ≠ 0) :
    (applyMoves initialMap ds).flagAt q &&& Object = 0 := by
  obtain ⟨hA, hN⟩ := applyMoves_inv ds initialMap (by decide) (by decide)
  rcases noOverlap_coord _ hA.1 hN q hq with hz | hz
  · exact absurd hz hP
  · exact hz

theorem actor_never_on_object_cell_witness :
    inBounds (⟨3, 0⟩ : Vec2D) ∧
    (applyMoves initialMap [Direction.Left]).flagAt ⟨3, 0⟩ &&& Person ≠ 0 ∧
    (applyMoves initialMap [Direction.Left]).flagAt ⟨3, 0⟩ &&& Object = 0 :=
  ⟨by decide, by decide,
    actor_never_on_object_cell [Direction.Left] ⟨3, 0⟩ (by decide) (by decide)⟩

/-- Claim C1: if the actor faces a contiguous run of `K ≥ 0` in-bounds
box cells followed by an in-bounds box-free cell, the move succeeds with
chain count exactly `K`, the actor advances one cell, the vacated first
chain cell loses its box, every cell one step beyond an old chain cell
carries a box (the run shifted by one), and the resolution obeys the
recurrence "a level whose recursive call succeeds with count `prev`
succeeds with `prev + 1`". -/
theorem push_chain_displaces_run (m : Map) (dir : Direction) (K : Nat)
    (hlen : m.grid.length = 18) (hpos : inBounds m.person_pos)
    (hrun : runK m m.person_pos (dirToVec dir) K)
    (hin : inBounds (m.person_pos + ((K : Int) + 1) * dirToVec dir))
    (hfree : m.flagAt (m.person_pos + ((K : Int) + 1) * dirToVec dir) &&& Object = 0) :
    m.calculateObjectLength m.person_pos dir = (K : Int) ∧
    (m.move dir).person_pos = m.person_pos + dirToVec dir ∧
    (m.move dir).flagAt (m.person_pos + dirToVec dir) &&& Object = 0 ∧
    (∀ i : Nat, i < K →
      (m.move dir).flagAt (m.person_pos + (((i : Int) + 1) + 1) * dirToVec dir)
        &&& Object ≠ 0) ∧
    (∀ (q : Vec2D) (prev : Int), inBounds (q + dirToVec dir) →
      m.flagAt (q + dirToVec dir) &&& Object ≠ 0 →
      m.calculateObjectLength (q + dirToVec dir) dir = prev → 0 ≤ prev →
      m.calculateObjectLength q dir = prev + 1) := by
  have hle := runK_le_six m m.person_pos dir K hrun
  have hcalc : m.calculateObjectLength m.person_pos dir = (K : Int) :=
    calcLenAux_of_run m dir K m.person_pos (Width + Height)
      (by unfold Width Height; omega) hrun hin hfree
  obtain ⟨hppos, hlen2, hchar⟩ := move_spec m dir K hlen hpos hcalc
  have hnext : inBounds (m.person_pos + dirToVec dir) := by
    cases K with
    | zero => rwa [show ((0 : Nat) : Int) + 1 = 1 by norm_num, cell_one] at hin
    | succ j =>
      have h0 := (hrun 0 (by omega)).1
      rwa [show ((0 : Nat) : Int) + 1 = 1 by norm_num, cell_one] at h0
  have hpn : m.person_pos ≠ m.person_pos + dirToVec dir := by
    have h01 := cell_ne dir m.person_pos 0 1 (by norm_num)
    rwa [cell_zero, cell_one] at h01
  refine ⟨hcalc, hppos, ?_, ?_, fun q prev h1 h2 h3 h4 => calc_step m dir q prev h1 h2 h3 h4⟩
  · rw [hchar _ hnext, if_neg (Ne.symm hpn), if_pos rfl, orP_object, clearO_object]
  · intro i hi
    by_cases hiK : i + 1 = K
    · have hcast : ((i : Int) + 1) + 1 = (K : Int) + 1 := by omega
      rw [hcast]
      have hpt : m.person_pos ≠ m.person_pos + ((K : Int) + 1) * dirToVec dir := by
        have h0t := cell_ne dir m.person_pos 0 ((K : Int) + 1) (by omega)
        rwa [cell_zero] at h0t
      have hnt : m.person_pos + dirToVec dir
          ≠ m.person_pos + ((K : Int) + 1) * dirToVec dir := by
        have h1t := cell_ne dir m.person_pos 1 ((K : Int) + 1) (by omega)
        rwa [cell_one] at h1t
      rw [hchar _ hin, if_neg (Ne.symm hpt), if_neg (Ne.symm hnt),
        if_pos ⟨by omega, rfl⟩]
      exact orO_object _
    · have hmem := hrun (i + 1) (by omega)
      have hcast : ((i + 1 : Nat) : Int) + 1 = ((i : Int) + 1) + 1 := by push_cast; ring
      rw [hcast] at hmem
      have hc1 : m.person_pos + (((i : Int) + 1) + 1) * dirToVec dir ≠ m.person_pos := by
        have hcn := cell_ne dir m.person_pos (((i : Int) + 1) + 1) 0 (by omega)
        rwa [cell_zero] at hcn
      have hc2 : m.person_pos + (((i : Int) + 1) + 1) * dirToVec dir
          ≠ m.person_pos + dirToVec dir := by
        have hcn := cell_ne dir m.person_pos (((i : Int) + 1) + 1) 1 (by omega)
        rwa [cell_one] at hcn
      have hc3 : ¬(K ≠ 0 ∧ m.person_pos + (((i : Int) + 1) + 1) * dirToVec dir
          = m.person_pos + ((K : Int) + 1) * dirToVec dir) := by
        rintro ⟨-, hx⟩
        have hinj := cell_inj dir m.person_pos _ _ hx
        omega
      rw [hchar _ hmem.1, if_neg hc1, if_neg hc2, if_neg hc3]
      exact hmem.2

theorem push_chain_displaces_run_witness :
    runK mPush mPush.person_pos (dirToVec Direction.Left) 1 ∧
    inBounds (mPush.person_pos + (((1 : Nat) : Int) + 1) * dirToVec Direction.Left) ∧
    mPush.flagAt (mPush.person_pos + (((1 : Nat) : Int) + 1) * dirToVec Direction.Left)
      &&& Object = 0 ∧
    mPush.calculateObjectLength mPush.person_pos Direction.Left = ((1 : Nat) : Int) :=
  ⟨by decide, by decide, by decide,
    (push_chain_displaces_run mPush Direction.Left 1 (by decide) (by decide) (by decide)
      (by decide) (by decide)).1⟩

end PuzzleGame
